import Mathlib

/-!
# Verification of the JETSCAPE-analysis observable-filling logic

Shallow embedding of the repository's own logic:
`jetscape_analysis/analysis/analyze_events_STAT.py`,
`jetscape_analysis/analysis/analyze_events_TG3.py`, and
`plot/plot_results_STAT_utils.py`.

Modelling conventions:
* Real-valued kinematic quantities are modelled over `ℚ` (the code's
  arithmetic on them is plain `+ - * /` on machine floats; the claims under
  study are exact algebraic identities of that arithmetic).
* The angular distance `jet.delta_R(hadron)` is computed by the external
  fastjet library (out of scope per the spec); the embedding therefore takes
  the distance function `dR : Particle → Particle → ℚ` as an explicit
  parameter, exactly as the Python code consumes it as an oracle.
* `np.sqrt` / `fastjet m()` and `np.power(x, kappa)` for non-integer `kappa`
  are likewise external irrational-valued primitives; they are passed in as
  abstract functions `msqrt : ℚ → ℚ` and `powQ : ℚ → ℚ → ℚ`.  Facts needed
  about them (e.g. `msqrt 0 = 0`, true of IEEE sqrt) appear as hypotheses.
* `sys.exit(...)` inside a computation is modelled by an `Option` result
  (`none` = the process terminated instead of returning).
-/

/-- A fastjet `PseudoJet` as consumed by this repository: transverse momentum,
pseudorapidity, rapidity, azimuth, four-vector components, and the particle
identifier stored via `user_index`. -/
structure Particle where
  pt : ℚ
  eta : ℚ
  rap : ℚ
  phi : ℚ
  e : ℚ
  px : ℚ
  py : ℚ
  pz : ℚ
  pid : ℤ
deriving DecidableEq, Repr

/-- A reconstructed jet: its own kinematics (a `PseudoJet`) together with its
constituent list, as returned by the external clustering. -/
structure Jet where
  p : Particle
  constituents : List Particle
deriving DecidableEq, Repr

/-- The charged-hadron identifier list used throughout both analysis files:
(e-, mu-, pi+, K+, p+, Sigma+, Sigma-, Xi-, Omega-). -/
def chargedPidList : List ℤ := [11, 13, 211, 321, 2212, 3222, 3112, 3312, 3334]

/-! ## Hole subtraction (STAT `analyze_inclusive_jet` lines 355-364,
TG3 `fill_jet_histograms` lines 373-382) -/

/-- The `negative_pt` accumulation of STAT `analyze_inclusive_jet` (lines 357-360)
and TG3 `fill_jet_histograms` (lines 375-378): loop over the hole list, adding
the hole pt whenever its distance to the jet is `< jetR`. -/
def negative_pt (dR : Particle → Particle → ℚ) (jet : Jet)
    (fj_hadrons_negative : List Particle) (jetR : ℚ) : ℚ :=
  fj_hadrons_negative.foldl
    (fun acc hadron => if dR jet.p hadron < jetR then acc + hadron.pt else acc) 0

/-- The `holes_in_jet` accumulation of the same loops: the holes whose distance to
the jet is `< jetR`, in list order. -/
def holes_in_jet (dR : Particle → Particle → ℚ) (jet : Jet)
    (fj_hadrons_negative : List Particle) (jetR : ℚ) : List Particle :=
  fj_hadrons_negative.filter (fun hadron => dR jet.p hadron < jetR)

/-- Corrected jet pt of STAT `analyze_inclusive_jet` line 364 (and TG3
`fill_jet_histograms` line 382): `jet_pt = jet.pt() - negative_pt`. -/
def jet_pt_corrected (dR : Particle → Particle → ℚ) (jet : Jet)
    (fj_hadrons_negative : List Particle) (jetR : ℚ) : ℚ :=
  jet.p.pt - negative_pt dR jet fj_hadrons_negative jetR

/-- Helper: the `negative_pt` fold with an arbitrary starting accumulator. -/
lemma negative_pt_foldl_eq (dR : Particle → Particle → ℚ) (jet : Jet)
    (l : List Particle) (jetR : ℚ) (a : ℚ) :
    l.foldl (fun acc hadron => if dR jet.p hadron < jetR then acc + hadron.pt else acc) a
      = a + ((l.filter (fun hadron => dR jet.p hadron < jetR)).map Particle.pt).sum := by
  induction l generalizing a with
  | nil => simp
  | cons h t ih =>
      by_cases hc : dR jet.p h < jetR
      · simp [List.foldl_cons, List.filter_cons, hc, ih, add_assoc]
      · simp [List.foldl_cons, List.filter_cons, hc, ih]

/-- C1. For every jet, hole list, distance oracle and radius, the corrected
jet transverse momentum computed by `analyze_inclusive_jet` (STAT lines
355-364) / `fill_jet_histograms` (TG3 lines 373-382) equals the uncorrected
jet pt minus the sum of the transverse momenta of exactly those holes whose
angular distance to the jet axis is strictly less than the jet radius. -/
theorem hole_subtraction_is_filtered_sum (dR : Particle → Particle → ℚ)
    (jet : Jet) (fj_hadrons_negative : List Particle) (jetR : ℚ) :
    jet_pt_corrected dR jet fj_hadrons_negative jetR
      = jet.p.pt
        - ((fj_hadrons_negative.filter
            (fun hadron => dR jet.p hadron < jetR)).map Particle.pt).sum := by
  unfold jet_pt_corrected negative_pt
  rw [negative_pt_foldl_eq]
  ring

/-- C2. For every jet and every non-empty hole list all of whose members
are at distance `≥ jetR` from the jet axis, hole subtraction returns the
uncorrected jet pt unchanged (the subtracted sum `negative_pt` is zero). -/
theorem hole_subtraction_outside_cone_identity (dR : Particle → Particle → ℚ)
    (jet : Jet) (fj_hadrons_negative : List Particle) (jetR : ℚ)
    (hne : fj_hadrons_negative ≠ [])
    (hout : ∀ hadron ∈ fj_hadrons_negative, jetR ≤ dR jet.p hadron) :
    jet_pt_corrected dR jet fj_hadrons_negative jetR = jet.p.pt ∧
      negative_pt dR jet fj_hadrons_negative jetR = 0 := by
  have hfilter : fj_hadrons_negative.filter
      (fun hadron => dR jet.p hadron < jetR) = [] := by
    apply List.filter_eq_nil_iff.mpr
    intro hadron hmem
    simpa [not_lt] using hout hadron hmem
  have hz : negative_pt dR jet fj_hadrons_negative jetR = 0 := by
    unfold negative_pt
    rw [negative_pt_foldl_eq, hfilter]
    simp
  constructor
  · unfold jet_pt_corrected
    rw [hz]
    ring
  · exact hz

/-- Witness for C2 at a concrete input: one hole exactly on the cone boundary
(distance = radius) is not subtracted. -/
theorem hole_subtraction_outside_cone_identity_witness :
    jet_pt_corrected (fun _ _ => (2 : ℚ) / 5)
        ⟨⟨10, 0, 0, 0, 10, 10, 0, 0, 211⟩, []⟩
        [⟨3, 1, 1, 1, 3, 3, 0, 0, 211⟩] ((2 : ℚ) / 5)
      = (10 : ℚ) ∧
    negative_pt (fun _ _ => (2 : ℚ) / 5)
        ⟨⟨10, 0, 0, 0, 10, 10, 0, 0, 211⟩, []⟩
        [⟨3, 1, 1, 1, 3, 3, 0, 0, 211⟩] ((2 : ℚ) / 5) = 0 := by
  have h := hole_subtraction_outside_cone_identity (fun _ _ => (2 : ℚ) / 5)
    ⟨⟨10, 0, 0, 0, 10, 10, 0, 0, 211⟩, []⟩
    [⟨3, 1, 1, 1, 3, 3, 0, 0, 211⟩] ((2 : ℚ) / 5)
    (by decide) (by intro hadron hmem; simp_all)
  simpa using h

/-! ## Charge lookup (STAT `charge`, lines 939-948) -/

/-- STAT `charge(pid)` (lines 939-948): three membership tests on signed
particle identifiers; an unmatched identifier reaches `sys.exit`, modelled as
`none`. -/
def charge (pid : ℤ) : Option ℚ :=
  if pid ∈ [11, 13, -211, -321, -2212, -3222, 3112, 3312, 3334] then some (-1)
  else if pid ∈ [-11, -13, 211, 321, 2212, 3222, -3112, -3312, -3334] then some 1
  else if pid ∈ [22, 111, 2112] then some 0
  else none

/-- The documented species set of the charge lookup: all identifiers matched by
one of the three branches of `charge`. -/
def documentedPids : List ℤ :=
  [11, 13, -211, -321, -2212, -3222, 3112, 3312, 3334]
    ++ [-11, -13, 211, 321, 2212, 3222, -3112, -3312, -3334]
    ++ [22, 111, 2112]

/-- C4. The charge lookup is a total function on the documented species
set (it returns a value exactly on members of that set), it terminates the run
(returns `none`) on every identifier outside the set, and every value it ever
returns is `-1`, `+1`, or `0`. -/
theorem charge_total_on_documented_set (pid : ℤ) :
    ((charge pid).isSome ↔ pid ∈ documentedPids) ∧
      (charge pid = none ∨ charge pid = some (-1) ∨ charge pid = some 1 ∨
        charge pid = some 0) := by
  unfold charge documentedPids
  split_ifs with h1 h2 h3 <;> simp_all <;> tauto

/-! ## pp mode / empty hole list (C3) -/

/-- Value of `charge(pid)` inside the jet-charge sums.  The loops guard on
`abs(pid) ∈ chargedPidList`, under which the lookup always succeeds
(`charge_some_of_charged` below); the `getD 0` default is never reached. -/
def chargeVal (pid : ℤ) : ℚ := (charge pid).getD 0

/-- Under the loop guard `|pid| ∈ chargedPidList` the charge lookup succeeds. -/
lemma charge_some_of_charged (pid : ℤ) (h : |pid| ∈ chargedPidList) :
    (charge pid).isSome := by
  have habs : pid = 11 ∨ pid = -11 ∨ pid = 13 ∨ pid = -13 ∨ pid = 211 ∨
      pid = -211 ∨ pid = 321 ∨ pid = -321 ∨ pid = 2212 ∨ pid = -2212 ∨
      pid = 3222 ∨ pid = -3222 ∨ pid = 3112 ∨ pid = -3112 ∨ pid = 3312 ∨
      pid = -3312 ∨ pid = 3334 ∨ pid = -3334 := by
    simp only [chargedPidList, List.mem_cons, List.not_mem_nil, or_false] at h
    rcases h with h | h | h | h | h | h | h | h | h <;>
      rcases (abs_eq (by norm_num)).mp h with h | h <;> tauto
  rcases habs with h | h | h | h | h | h | h | h | h | h | h | h | h | h | h |
    h | h | h <;> subst h <;> decide

/-- CMS jet-charge numerator sum (STAT lines 505-513 for the positive hadrons,
lines 515-521 for the holes, which repeat the same three guards): loop over a
hadron list, and for hadrons passing the track-pt cut, the charged-pid check
and the in-cone check, add `charge(pid) * np.power(pt, kappa)`. -/
def charge_sum (dR : Particle → Particle → ℚ) (powQ : ℚ → ℚ → ℚ) (jet : Jet)
    (hadrons : List Particle) (track_pt_min jetR kappa : ℚ) : ℚ :=
  hadrons.foldl
    (fun acc hadron =>
      if hadron.pt > track_pt_min then
        if |hadron.pid| ∈ chargedPidList then
          if dR jet.p hadron < jetR then
            acc + chargeVal hadron.pid * powQ hadron.pt kappa
          else acc
        else acc
      else acc) 0

/-- CMS jet charge, AA branch (STAT lines 514-524):
`(sum - sum_holes) / np.power(jet_pt, kappa)`, where `sum_holes` ranges over
`holes_in_jet`. -/
def jet_charge_AA (dR : Particle → Particle → ℚ) (powQ : ℚ → ℚ → ℚ) (jet : Jet)
    (fj_hadrons_positive fj_hadrons_negative : List Particle)
    (track_pt_min jetR kappa jet_pt : ℚ) : ℚ :=
  (charge_sum dR powQ jet fj_hadrons_positive track_pt_min jetR kappa
      - charge_sum dR powQ jet (holes_in_jet dR jet fj_hadrons_negative jetR)
          track_pt_min jetR kappa)
    / powQ jet_pt kappa

/-- CMS jet charge, pp branch (STAT lines 525-526):
`sum / np.power(jet_pt, kappa)`. -/
def jet_charge_pp (dR : Particle → Particle → ℚ) (powQ : ℚ → ℚ → ℚ) (jet : Jet)
    (fj_hadrons_positive : List Particle) (track_pt_min jetR kappa jet_pt : ℚ) : ℚ :=
  charge_sum dR powQ jet fj_hadrons_positive track_pt_min jetR kappa
    / powQ jet_pt kappa

/-- Angularity accumulation (STAT lines 602-608): `Σ pt/jet_pt * delta_R` over
a particle list (used both for the jet constituents and for the holes). -/
def g_sum (dR : Particle → Particle → ℚ) (jet : Jet) (l : List Particle)
    (jet_pt : ℚ) : ℚ :=
  l.foldl (fun acc c => acc + c.pt / jet_pt * dR c jet.p) 0

/-- Angularity, AA value (STAT lines 602-612): constituent sum minus the
`holes_in_jet` sum. -/
def g_alice_AA (dR : Particle → Particle → ℚ) (jet : Jet)
    (fj_hadrons_negative : List Particle) (jetR jet_pt : ℚ) : ℚ :=
  g_sum dR jet jet.constituents jet_pt
    - g_sum dR jet (holes_in_jet dR jet fj_hadrons_negative jetR) jet_pt

/-- Angularity, pp value: constituent sum only. -/
def g_alice_pp (dR : Particle → Particle → ℚ) (jet : Jet) (jet_pt : ℚ) : ℚ :=
  g_sum dR jet jet.constituents jet_pt

/-- pTD squared-pt accumulation (STAT lines 621-629): `Σ np.power(pt, 2)` over
a particle list. -/
def ptd_sum (l : List Particle) : ℚ :=
  l.foldl (fun acc c => acc + c.pt ^ 2) 0

/-- pTD, AA value (STAT lines 621-631): `np.sqrt(sum - sum_holes) / jet_pt`. -/
def ptd_alice_AA (msqrt : ℚ → ℚ) (dR : Particle → Particle → ℚ) (jet : Jet)
    (fj_hadrons_negative : List Particle) (jetR jet_pt : ℚ) : ℚ :=
  msqrt (ptd_sum jet.constituents
      - ptd_sum (holes_in_jet dR jet fj_hadrons_negative jetR)) / jet_pt

/-- pTD, pp value: `np.sqrt(sum) / jet_pt`. -/
def ptd_alice_pp (msqrt : ℚ → ℚ) (jet : Jet) (jet_pt : ℚ) : ℚ :=
  msqrt (ptd_sum jet.constituents) / jet_pt

/-- Model of `fj.PseudoJet()`: the zero four-vector. -/
def zeroPseudoJet : Particle := ⟨0, 0, 0, 0, 0, 0, 0, 0, 0⟩

/-- Hole four-vector accumulation (STAT lines 645-647): start from
`fj.PseudoJet()` and add each hole's four-momentum. -/
def hole_four_vector (l : List Particle) : Particle :=
  l.foldl
    (fun acc h =>
      { acc with e := acc.e + h.e, px := acc.px + h.px, py := acc.py + h.py,
                 pz := acc.pz + h.pz }) zeroPseudoJet

/-- fastjet `m()`: `sqrt(E^2 - px^2 - py^2 - pz^2)` with the square root
abstracted as `msqrt`. -/
def m_of (msqrt : ℚ → ℚ) (p : Particle) : ℚ :=
  msqrt (p.e ^ 2 - p.px ^ 2 - p.py ^ 2 - p.pz ^ 2)

/-- Jet mass, AA value (STAT lines 641-650): `jet.m()` minus the mass of the
summed hole four-vector. -/
def mass_alice_AA (msqrt : ℚ → ℚ) (dR : Particle → Particle → ℚ) (jet : Jet)
    (fj_hadrons_negative : List Particle) (jetR : ℚ) : ℚ :=
  m_of msqrt jet.p
    - m_of msqrt (hole_four_vector (holes_in_jet dR jet fj_hadrons_negative jetR))

/-- Jet mass, pp value: `jet.m()`. -/
def mass_alice_pp (msqrt : ℚ → ℚ) (jet : Jet) : ℚ := m_of msqrt jet.p

/-- C3. With an empty hole list, every subtracted observable value equals
the corresponding unsubtracted (pp) value: jet pt, CMS jet charge, ALICE
angularity, pTD and jet mass.  The only analytic fact used is
`msqrt 0 = 0` (true of `np.sqrt` / fastjet `m()` on the zero vector). -/
theorem empty_holes_subtraction_identity (msqrt : ℚ → ℚ)
    (dR : Particle → Particle → ℚ) (powQ : ℚ → ℚ → ℚ) (jet : Jet)
    (fj_hadrons_positive : List Particle) (track_pt_min jetR kappa jet_pt : ℚ)
    (hsqrt : msqrt 0 = 0) :
    jet_pt_corrected dR jet [] jetR = jet.p.pt ∧
      jet_charge_AA dR powQ jet fj_hadrons_positive [] track_pt_min jetR kappa jet_pt
        = jet_charge_pp dR powQ jet fj_hadrons_positive track_pt_min jetR kappa jet_pt ∧
      g_alice_AA dR jet [] jetR jet_pt = g_alice_pp dR jet jet_pt ∧
      ptd_alice_AA msqrt dR jet [] jetR jet_pt = ptd_alice_pp msqrt jet jet_pt ∧
      mass_alice_AA msqrt dR jet [] jetR = mass_alice_pp msqrt jet := by
  refine ⟨?_, ?_, ?_, ?_, ?_⟩
  · simp [jet_pt_corrected, negative_pt]
  · simp [jet_charge_AA, jet_charge_pp, holes_in_jet, charge_sum]
  · simp [g_alice_AA, g_alice_pp, holes_in_jet, g_sum]
  · simp [ptd_alice_AA, ptd_alice_pp, holes_in_jet, ptd_sum]
  · simp [mass_alice_AA, mass_alice_pp, holes_in_jet, hole_four_vector,
      zeroPseudoJet, m_of, hsqrt]

/-- Witness for C3 at a concrete input (`msqrt := id`, `powQ := (·*·)` as
stand-ins for the external primitives; `msqrt 0 = 0` holds by `rfl`). -/
theorem empty_holes_subtraction_identity_witness :
    jet_pt_corrected (fun _ _ => 0) ⟨⟨10, 0, 0, 0, 10, 10, 0, 0, 211⟩, []⟩ [] (2/5)
        = (10 : ℚ) ∧
      jet_charge_AA (fun _ _ => 0) (fun a _ => a) ⟨⟨10, 0, 0, 0, 10, 10, 0, 0, 211⟩, []⟩
          [⟨3, 0, 0, 0, 3, 3, 0, 0, 211⟩] [] 1 (2/5) 1 10
        = jet_charge_pp (fun _ _ => 0) (fun a _ => a) ⟨⟨10, 0, 0, 0, 10, 10, 0, 0, 211⟩, []⟩
          [⟨3, 0, 0, 0, 3, 3, 0, 0, 211⟩] 1 (2/5) 1 10 ∧
      g_alice_AA (fun _ _ => 0) ⟨⟨10, 0, 0, 0, 10, 10, 0, 0, 211⟩, []⟩ [] (2/5) 10
        = g_alice_pp (fun _ _ => 0) ⟨⟨10, 0, 0, 0, 10, 10, 0, 0, 211⟩, []⟩ 10 ∧
      ptd_alice_AA id (fun _ _ => 0) ⟨⟨10, 0, 0, 0, 10, 10, 0, 0, 211⟩, []⟩ [] (2/5) 10
        = ptd_alice_pp id ⟨⟨10, 0, 0, 0, 10, 10, 0, 0, 211⟩, []⟩ 10 ∧
      mass_alice_AA id (fun _ _ => 0) ⟨⟨10, 0, 0, 0, 10, 10, 0, 0, 211⟩, []⟩ [] (2/5)
        = mass_alice_pp id ⟨⟨10, 0, 0, 0, 10, 10, 0, 0, 211⟩, []⟩ := by
  have h := empty_holes_subtraction_identity id (fun _ _ => 0) (fun a _ => a)
    ⟨⟨10, 0, 0, 0, 10, 10, 0, 0, 211⟩, []⟩ [⟨3, 0, 0, 0, 3, 3, 0, 0, 211⟩]
    1 (2/5) 1 10 rfl
  simpa [jet_pt_corrected, negative_pt] using h

/-! ## Command-line entry guard (STAT lines 985-993, TG3 lines 581-589) -/

/-- Outcome of the `__main__` file-existence guard: either the process exits
(with a printed message and an exit code) before any analysis, or the analysis
object is constructed and run. -/
inductive MainOutcome
  | exit (printedMessage : Bool) (code : ℕ)
  | runAnalysis
deriving DecidableEq, Repr

/-- The `__main__` guard of both analysis drivers: if the config path does not
exist, print and `sys.exit(0)`; else if the input path does not exist, print
and `sys.exit(0)`; otherwise run the analysis. -/
def main_guard (configExists inputExists : Bool) : MainOutcome :=
  if !configExists then .exit true 0
  else if !inputExists then .exit true 0
  else .runAnalysis

/-- C5, counterexample. The claim that a missing file makes the process
exit with a nonzero status is false: with a missing config file the process
exits via `sys.exit(0)`, i.e. with exit status 0. -/
theorem main_guard_zero_exit_counterexample :
    main_guard false true = MainOutcome.exit true 0 ∧
      ¬ (∀ cfgExists inpExists : Bool, (cfgExists = false ∨ inpExists = false) →
          ∀ printed code, main_guard cfgExists inpExists = .exit printed code →
            code ≠ 0) := by
  refine ⟨rfl, fun hclaim => ?_⟩
  exact hclaim false true (Or.inl rfl) true 0 rfl rfl

/-- C5, amended. If the configuration path or the input path names a
missing file, the process prints a diagnostic message and exits immediately
with exit status 0 (not nonzero), performing no analysis. -/
theorem main_guard_exits_on_missing_file (cfgExists inpExists : Bool)
    (h : cfgExists = false ∨ inpExists = false) :
    main_guard cfgExists inpExists = .exit true 0 ∧
      main_guard cfgExists inpExists ≠ .runAnalysis := by
  cases cfgExists <;> cases inpExists <;> simp_all [main_guard]

/-- Witness for the amended C5 at a concrete input (input file missing). -/
theorem main_guard_exits_on_missing_file_witness :
    main_guard true false = .exit true 0 ∧ main_guard true false ≠ .runAnalysis :=
  main_guard_exits_on_missing_file true false (Or.inr rfl)

/-! ## STAT `leading_jet` (lines 913-934) and its index (C9) -/

/-- STAT `leading_jet` (lines 913-934): fold over the enumerated jet list; for
each jet compute the hole-corrected pt (`jet_pt = jet.pt()` then `-=` each
in-cone hole pt), take the jet on the first iteration, replace it whenever a
strictly larger corrected pt appears, and carry the running loop index.
Returns the Python triple `(leading_jet, leading_jet_pt, i)`. -/
def leading_jet (dR : Particle → Particle → ℚ) (jets : List Jet)
    (fj_hadrons_negative : List Particle) (jetR : ℚ) :
    Option Jet × ℚ × ℕ :=
  jets.enum.foldl
    (fun st ij =>
      let jet := ij.2
      let jet_pt := fj_hadrons_negative.foldl
        (fun acc temp_hadron =>
          if dR jet.p temp_hadron < jetR then acc - temp_hadron.pt else acc)
        jet.p.pt
      let st1 := if st.1.isNone then (some jet, jet_pt) else (st.1, st.2.1)
      let st2 := if jet_pt > st1.2 then (some jet, jet_pt) else st1
      (st2.1, st2.2, ij.1))
    (none, 0, 0)

/-- C9, code bug. The function `leading_jet` does return the jet of maximal corrected
pt, but the returned index is the loop's final index (the last index of the
input list), not the index of the returned jet: on `[jA, jB]` with
`pt(jA) = 10 > pt(jB) = 5` and no holes it returns `(jA, 10, 1)`, while `jA`
sits at index 0 and index 1 holds `jB ≠ jA`.  `fill_dijet_observables` (line
901) then deletes index 1, i.e. not the leading jet. -/
theorem leading_jet_returns_last_index :
    leading_jet (fun _ _ => 1)
        [⟨⟨10, 0, 0, 0, 10, 10, 0, 0, 211⟩, []⟩, ⟨⟨5, 0, 0, 0, 5, 5, 0, 0, 211⟩, []⟩]
        [] (2/5)
      = (some ⟨⟨10, 0, 0, 0, 10, 10, 0, 0, 211⟩, []⟩, 10, 1) ∧
    [(⟨⟨10, 0, 0, 0, 10, 10, 0, 0, 211⟩, []⟩ : Jet), ⟨⟨5, 0, 0, 0, 5, 5, 0, 0, 211⟩, []⟩][1]?
      = some ⟨⟨5, 0, 0, 0, 5, 5, 0, 0, 211⟩, []⟩ ∧
    (⟨⟨5, 0, 0, 0, 5, 5, 0, 0, 211⟩, []⟩ : Jet) ≠ ⟨⟨10, 0, 0, 0, 10, 10, 0, 0, 211⟩, []⟩ := by
  refine ⟨by decide, by decide, by decide⟩

/-! ## Silent skipping of failed cuts (C7) -/

/-- STAT `fill_hadron_observables`, `pt_ch_alice` block (lines 273-279): append
the hadron pt to the output list only when the centrality is accepted, the pt
window and eta cut pass, and the pid is a charged-hadron pid; otherwise leave
the list untouched. -/
def fill_hadron_pt_ch_alice (centOK : Bool) (pt_min pt_max eta_cut : ℚ)
    (particle : Particle) (out : List ℚ) : List ℚ :=
  if centOK then
    if particle.pt > pt_min ∧ particle.pt < pt_max then
      if |particle.eta| < eta_cut then
        if |particle.pid| ∈ chargedPidList then out ++ [particle.pt]
        else out
      else out
    else out
  else out

/-- Leading-track acceptance loop of STAT `fill_full_jet_ungroomed_observables`
(lines 410-415): `accept_jet` starts `False` and is set on any constituent
with pt above the leading-track minimum and a charged-hadron pid. -/
def accept_jet_leading_track (jet : Jet) (min_leading_track_pt : ℚ) : Bool :=
  jet.constituents.foldl
    (fun acc constituent =>
      if constituent.pt > min_leading_track_pt then
        if |constituent.pid| ∈ chargedPidList then true else acc
      else acc)
    false

/-- STAT `fill_full_jet_ungroomed_observables`, ALICE RAA block (lines
397-419): nested centrality / jet-R membership / eta / pt-window / leading
track requirement guards around the two appends (subtracted list, and for AA
the unsubtracted list).  `min_leading_track_pt` is 5 for R = 0.2, else 7. -/
def fill_jet_pt_alice (centOK jetRinList : Bool) (eta_cut_R jetR pt_min pt_max : ℚ)
    (isAA : Bool) (jet : Jet) (jet_pt jet_pt_uncorrected : ℚ)
    (out : List ℚ × List ℚ) : List ℚ × List ℚ :=
  if centOK then
    if jetRinList then
      if |jet.p.eta| < eta_cut_R - jetR then
        if jet_pt > pt_min ∧ jet_pt < pt_max then
          let min_leading_track_pt : ℚ := if jetR = 0.2 then 5 else 7
          if accept_jet_leading_track jet min_leading_track_pt then
            (out.1 ++ [jet_pt],
             if isAA then out.2 ++ [jet_pt_uncorrected] else out.2)
          else out
        else out
      else out
    else out
  else out

/-- C7. A hadron or jet failing any selection appends nothing: if the
conjunction of the `pt_ch_alice` hadron cuts fails, the observable list is
returned exactly as it was; likewise, if the conjunction of the ALICE jet-RAA
cuts (centrality, jet-R membership, eta, pt window, leading-track requirement)
fails, both output lists are returned exactly as they were. -/
theorem failed_cuts_append_nothing (centOK jetRinList : Bool)
    (pt_min pt_max eta_cut eta_cut_R jetR jpt_min jpt_max : ℚ) (isAA : Bool)
    (particle : Particle) (jet : Jet) (jet_pt jet_pt_uncorrected : ℚ)
    (out : List ℚ) (jout : List ℚ × List ℚ)
    (hhad : ¬(centOK = true ∧ particle.pt > pt_min ∧ particle.pt < pt_max ∧
      |particle.eta| < eta_cut ∧ |particle.pid| ∈ chargedPidList))
    (hjet : ¬(centOK = true ∧ jetRinList = true ∧ |jet.p.eta| < eta_cut_R - jetR ∧
      jet_pt > jpt_min ∧ jet_pt < jpt_max ∧
      accept_jet_leading_track jet (if jetR = 0.2 then 5 else 7) = true)) :
    fill_hadron_pt_ch_alice centOK pt_min pt_max eta_cut particle out = out ∧
      fill_jet_pt_alice centOK jetRinList eta_cut_R jetR jpt_min jpt_max isAA
        jet jet_pt jet_pt_uncorrected jout = jout := by
  constructor
  · unfold fill_hadron_pt_ch_alice
    split_ifs with h1 h2 h3 h4 <;> simp_all
  · unfold fill_jet_pt_alice
    split_ifs with h1 h2 h3 h4 h5 <;> simp_all

/-- Witness for C7 at a concrete input: a hadron below the pt window and a jet
whose only constituent fails the leading-track pt requirement leave the output
lists (containing a prior entry `7`) unchanged. -/
theorem failed_cuts_append_nothing_witness :
    fill_hadron_pt_ch_alice true 10 20 (9/10) ⟨3, 0, 0, 0, 3, 3, 0, 0, 211⟩ [7] = [7] ∧
      fill_jet_pt_alice true true (7/10) (2/5) 10 20 true
        ⟨⟨15, 0, 0, 0, 15, 15, 0, 0, 0⟩, [⟨1, 0, 0, 0, 1, 1, 0, 0, 211⟩]⟩
        15 15 ([7], [7]) = ([7], [7]) := by
  have h := failed_cuts_append_nothing true true 10 20 (9/10) (7/10) (2/5) 10 20 true
    ⟨3, 0, 0, 0, 3, 3, 0, 0, 211⟩
    ⟨⟨15, 0, 0, 0, 15, 15, 0, 0, 0⟩, [⟨1, 0, 0, 0, 1, 1, 0, 0, 211⟩]⟩
    15 15 [7] ([7], [7])
    (by intro hc; exact absurd hc.2.1 (by norm_num))
    (by
      intro hc
      have hacc := hc.2.2.2.2.2
      have h1 : ¬((1 : ℚ) > (if (2 : ℚ)/5 = 0.2 then 5 else 7)) := by
        split_ifs <;> norm_num
      simp [accept_jet_leading_track, List.foldl, h1] at hacc)
  exact h

/-! ## Observable-key creation (STAT `initialize_output_lists`, lines 172-248)
and the keys written by the g_alice fill block (lines 596-612)

Key strings are built by Python f-strings; the numeric parameters `jetR`,
`zcut`, `beta`, `kappa` enter a key only through their decimal rendering, so
the model carries them as their rendered strings. -/

/-- One SoftDrop grooming setting as it appears in the YAML config. -/
structure GroomSetting where
  zcut : String
  beta : String
deriving DecidableEq, Repr

/-- One observable block of the YAML config: its jet radii, optional SoftDrop
settings, and (for `charge_cms`) its kappa list. -/
structure ObsBlock where
  jet_R : List String
  softDrop : Option (List GroomSetting)
  kappa : List String
deriving DecidableEq, Repr

/-- The configuration fields consumed by `initialize_output_lists`:
`inclusive_jet`, `semi_inclusive_chjet` and `dijet` are optional blocks
(`config` keys guarded by `in config` at lines 82-87). -/
structure Config where
  isAA : Bool
  sqrts : ℕ
  hadron : List String
  hadron_correlations : List String
  inclusive_jet : Option (List (String × ObsBlock))
  inclusive_chjet : List (String × ObsBlock)
  semi_inclusive_chjet : Option (List (String × ObsBlock))
  dijet : Option (List (String × ObsBlock))
deriving Repr

/-- Python `sub in s` substring test. -/
def strContains (s sub : String) : Bool := decide (sub.toList <:+: s.toList)

/-- Keys created for one `inclusive_jet` observable block (lines 183-207). -/
def inclusive_jet_keys (isAA : Bool) (key : String) (b : ObsBlock) : List String :=
  b.jet_R.flatMap (fun jetR =>
    match b.softDrop with
    | some gss =>
        gss.flatMap (fun gs =>
          [s!"inclusive_jet_{key}_R{jetR}_zcut{gs.zcut}_beta{gs.beta}"]
            ++ if isAA then
                [s!"inclusive_jet_{key}_R{jetR}_zcut{gs.zcut}_beta{gs.beta}_unsubtracted"]
              else [])
    | none =>
        if strContains key "charge_cms" then
          b.kappa.flatMap (fun kappa =>
            [s!"inclusive_jet_{key}_R{jetR}_k{kappa}"]
              ++ if isAA then [s!"inclusive_jet_{key}_R{jetR}_k{kappa}_unsubtracted"]
                else [])
        else
          [s!"inclusive_jet_{key}_R{jetR}"]
            ++ (if strContains key "Dz" || strContains key "Dpt" then
                  (if isAA then [s!"inclusive_jet_{key}_R{jetR}_holes"] else [])
                    ++ (if strContains key "Dz" then
                          [s!"inclusive_jet_{key}_R{jetR}_Njets"] else [])
                else
                  (if isAA then [s!"inclusive_jet_{key}_R{jetR}_unsubtracted"]
                    else [])))

/-- Keys created for one `inclusive_chjet` observable block (lines 209-223),
with the `tg_alice` R=0.2 zcut=0.4 skip at lines 215-216. -/
def inclusive_chjet_keys (isAA : Bool) (key : String) (b : ObsBlock) : List String :=
  b.jet_R.flatMap (fun jetR =>
    match b.softDrop with
    | some gss =>
        gss.flatMap (fun gs =>
          if key = "tg_alice" ∧ jetR = "0.2" ∧ gs.zcut = "0.4" then []
          else
            [s!"inclusive_chjet_{key}_R{jetR}_zcut{gs.zcut}_beta{gs.beta}"]
              ++ if isAA then
                  [s!"inclusive_chjet_{key}_R{jetR}_zcut{gs.zcut}_beta{gs.beta}_unsubtracted"]
                else [])
    | none =>
        [s!"inclusive_chjet_{key}_R{jetR}"]
          ++ if isAA then [s!"inclusive_chjet_{key}_R{jetR}_unsubtracted"] else [])

/-- Keys created for one `semi_inclusive_chjet` observable block
(lines 226-241). -/
def semi_inclusive_chjet_keys (isAA : Bool) (sqrts : ℕ) (key : String)
    (b : ObsBlock) : List String :=
  b.jet_R.flatMap (fun jetR =>
    if sqrts = 2760 then
      [s!"semi_inclusive_chjet_{key}_R{jetR}_lowTrigger",
       s!"semi_inclusive_chjet_{key}_R{jetR}_highTrigger",
       "semi_inclusive_chjet_alice_trigger_pt"]
        ++ (if isAA then
              [s!"semi_inclusive_chjet_{key}_R{jetR}_lowTrigger_unsubtracted",
               s!"semi_inclusive_chjet_{key}_R{jetR}_highTrigger_unsubtracted",
               "semi_inclusive_chjet_alice_trigger_pt_unsubtracted"]
            else [])
    else if sqrts = 200 then
      [s!"semi_inclusive_chjet_{key}_R{jetR}",
       "semi_inclusive_chjet_star_trigger_pt"]
        ++ (if isAA then
              [s!"semi_inclusive_chjet_{key}_R{jetR}_unsubtracted",
               "semi_inclusive_chjet_star_trigger_pt_unsubtracted"]
            else [])
    else [])

/-- Keys created for one `dijet` observable block (lines 244-248). -/
def dijet_keys (isAA : Bool) (key : String) (b : ObsBlock) : List String :=
  b.jet_R.flatMap (fun jetR =>
    [s!"dijet_{key}_R{jetR}"]
      ++ if isAA then [s!"dijet_{key}_R{jetR}_unsubtracted"] else [])

/-- All observable keys created by STAT `initialize_output_lists`
(lines 172-248), in creation order. -/
def output_list_keys (c : Config) : List String :=
  c.hadron.flatMap (fun observable =>
      [s!"hadron_{observable}"]
        ++ if c.isAA then [s!"hadron_{observable}_holes"] else [])
    ++ c.hadron_correlations.map (fun observable => s!"hadron_correlations_{observable}")
    ++ (match c.inclusive_jet with
        | some blocks => blocks.flatMap (fun kb => inclusive_jet_keys c.isAA kb.1 kb.2)
        | none => [])
    ++ c.inclusive_chjet.flatMap (fun kb => inclusive_chjet_keys c.isAA kb.1 kb.2)
    ++ (match c.semi_inclusive_chjet with
        | some blocks =>
            blocks.flatMap (fun kb => semi_inclusive_chjet_keys c.isAA c.sqrts kb.1 kb.2)
        | none => [])
    ++ (match c.dijet with
        | some blocks => blocks.flatMap (fun kb => dijet_keys c.isAA kb.1 kb.2)
        | none => [])

/-- The per-event observable dictionary after `initialize_output_lists` ran on
top of the previous dictionary state: every created key is assigned the empty
list, in order; other keys keep their previous binding. -/
def reset_output_dict (c : Config) (prev : String → Option (List ℚ)) :
    String → Option (List ℚ) :=
  (output_list_keys c).foldl
    (fun d key => fun q => if q = key then some [] else d q) prev

/-- Helper for C8: assigning `[]` to every key of a list makes each listed key
map to `[]`, whatever the starting dictionary held. -/
lemma foldl_assign_empty (l : List String) (d : String → Option (List ℚ))
    (key : String) (h : key ∈ l ∨ d key = some []) :
    l.foldl (fun d k => fun q => if q = k then some [] else d q) d key = some [] := by
  induction l generalizing d with
  | nil => simpa using h
  | cons a t ih =>
      apply ih
      by_cases hk : key = a
      · right; simp [hk]
      · rcases h with h | h
        · rcases List.mem_cons.mp h with h | h
          · exact absurd h hk
          · left; exact h
        · right; simp [hk, h]

/-- C8. After the per-event key reset, every observable key derived from
the configuration's declared observable blocks is bound to the empty list,
regardless of what the dictionary held for it before — values from an earlier
event never carry over. -/
theorem output_keys_reset_to_empty (c : Config)
    (prev : String → Option (List ℚ)) (key : String)
    (h : key ∈ output_list_keys c) :
    reset_output_dict c prev key = some [] := by
  unfold reset_output_dict
  exact foldl_assign_empty _ prev key (Or.inl h)

/-- Witness for C8 at a concrete input: a pp config with one hadron observable;
the key held a stale value `[3]` and is re-bound to `[]`. -/
theorem output_keys_reset_to_empty_witness :
    reset_output_dict
        { isAA := false, sqrts := 5020, hadron := ["pt_ch_cms"],
          hadron_correlations := [], inclusive_jet := none, inclusive_chjet := [],
          semi_inclusive_chjet := none, dijet := none }
        (fun _ => some [3]) "hadron_pt_ch_cms" = some [] :=
  output_keys_reset_to_empty _ (fun _ => some [3]) "hadron_pt_ch_cms" (by decide)

/-- Keys appended to by the ALICE angularity (`g_alice`) block of
`fill_charged_jet_ungroomed_observables` (lines 602-612) when all its cuts
pass, in write order: for AA the literal f-string
`f'inclusive_chjet_g_alice_R{jetR})unsubtracted'` (line 609) and then the
subtracted key; for pp only the subtracted key. -/
def g_alice_written_keys (jetR : String) (isAA : Bool) : List String :=
  if isAA then
    [s!"inclusive_chjet_g_alice_R{jetR})unsubtracted",
     s!"inclusive_chjet_g_alice_R{jetR}"]
  else [s!"inclusive_chjet_g_alice_R{jetR}"]

/-- An AA configuration declaring only the `inclusive_chjet` `g_alice`
observable with jet radius 0.2. -/
def gAliceConfig : Config :=
  { isAA := true, sqrts := 2760, hadron := [], hadron_correlations := [],
    inclusive_jet := none,
    inclusive_chjet := [("g_alice", { jet_R := ["0.2"], softDrop := none, kappa := [] })],
    semi_inclusive_chjet := none, dijet := none }

/-- C6, code bug. In AA mode the `g_alice` fill block writes to the key
`inclusive_chjet_g_alice_R0.2)unsubtracted` (a typo at line 609, `)` in place
of `_`), but `initialize_output_lists` created only
`inclusive_chjet_g_alice_R0.2` and `inclusive_chjet_g_alice_R0.2_unsubtracted`
for this configuration: a key written during the event was never initialized
from the config. -/
theorem g_alice_writes_uncreated_key :
    "inclusive_chjet_g_alice_R0.2)unsubtracted" ∈ g_alice_written_keys "0.2" true ∧
      output_list_keys gAliceConfig
        = ["inclusive_chjet_g_alice_R0.2", "inclusive_chjet_g_alice_R0.2_unsubtracted"] ∧
      "inclusive_chjet_g_alice_R0.2)unsubtracted" ∉ output_list_keys gAliceConfig := by
  refine ⟨by decide, by decide, by decide⟩

/-! ## `divide_tgraph` (plot_results_STAT_utils.py, lines 112-152) -/

/-- One `TGraphAsymmErrors` point: coordinates and asymmetric errors. -/
structure TGraphPoint where
  x : ℚ
  y : ℚ
  exl : ℚ
  exh : ℚ
  eyl : ℚ
  eyh : ℚ
deriving DecidableEq, Repr

/-- A ROOT `TGraphAsymmErrors`: a name and a point list. -/
structure TGraph where
  name : String
  points : List TGraphPoint
deriving DecidableEq, Repr

/-- A ROOT `TH1` as read by `divide_tgraph`: per-bin center, content and
error (index `i` is Python's `bin - 1`). -/
structure TH1 where
  centers : List ℚ
  contents : List ℚ
  errors : List ℚ
deriving DecidableEq, Repr

/-- Out-of-range `GetPoint` default (the claims only concern graphs with at
least as many points as the histogram has bins). -/
def defaultPoint : TGraphPoint := ⟨0, 0, 0, 0, 0, 0⟩

/-- Model of `np.isclose(a, b)` with NumPy's default tolerances
`atol = 1e-8`, `rtol = 1e-5`: `|a - b| ≤ atol + rtol * |b|`. -/
def isClose (a b : ℚ) : Prop := |a - b| ≤ 1 / 100000000 + 1 / 100000 * |b|

instance (a b : ℚ) : Decidable (isClose a b) := by unfold isClose; infer_instance

lemma isClose_self (x : ℚ) : isClose x x := by
  unfold isClose
  have : (0 : ℚ) ≤ 1 / 100000 * |x| := by positivity
  simp only [sub_self, abs_zero]
  linarith

/-- The point written for 0-based bin `bin` (lines 121-151): content
`h_y / gy`, errors combined in quadrature when both are positive and scaled
linearly otherwise, x set to the bin center and x-errors set to 0. -/
def new_point (msqrt : ℚ → ℚ) (h : TH1) (g : TGraph) (bin : ℕ) : TGraphPoint :=
  let h_x := h.centers.getD bin 0
  let h_y := h.contents.getD bin 0
  let h_error := h.errors.getD bin 0
  let p := g.points.getD bin defaultPoint
  let new_content := h_y / p.y
  let new_error_low :=
    if p.y > 0 ∧ h_y > 0 then
      msqrt ((p.eyl / p.y) ^ 2 + (h_error / h_y) ^ 2) * new_content
    else (p.eyl / p.y) * new_content
  let new_error_up :=
    if p.y > 0 ∧ h_y > 0 then
      msqrt ((p.eyh / p.y) ^ 2 + (h_error / h_y) ^ 2) * new_content
    else (p.eyh / p.y) * new_content
  ⟨h_x, new_content, 0, 0, new_error_low, new_error_up⟩

/-- One iteration of the `divide_tgraph` loop: `sys.exit` (modelled `none`)
unless the bin center is `np.isclose` to the graph x, otherwise write the new
point into the cloned graph. -/
def divide_step (msqrt : ℚ → ℚ) (h : TH1) (g : TGraph) (g_new : TGraph)
    (bin : ℕ) : Option TGraph :=
  if isClose (h.centers.getD bin 0) ((g.points.getD bin defaultPoint).x) then
    some { g_new with points := g_new.points.set bin (new_point msqrt h g bin) }
  else none

/-- The `for bin in range(1, nBins+1)` loop (lines 118-151), over 0-based bin
indices, threading the cloned graph. -/
def divide_loop (msqrt : ℚ → ℚ) (h : TH1) (g : TGraph) :
    List ℕ → TGraph → Option TGraph
  | [], acc => some acc
  | bin :: rest, acc =>
      match divide_step msqrt h g acc bin with
      | some acc1 => divide_loop msqrt h g rest acc1
      | none => none

/-- Model of `divide_tgraph(h, g)` (lines 112-152): clone `g` under the name
`g.GetName() + "_divided"`, then run the loop over all bins; `none` models the
`sys.exit` on a bin-center mismatch. -/
def divide_tgraph (msqrt : ℚ → ℚ) (h : TH1) (g : TGraph) : Option TGraph :=
  divide_loop msqrt h g (List.range h.centers.length)
    { g with name := g.name ++ "_divided" }

/-- Helper: the loop succeeds on a list of close bins, and its result just
folds the point writes over the accumulator. -/
lemma divide_loop_eq_some (msqrt : ℚ → ℚ) (h : TH1) (g : TGraph)
    (bins : List ℕ) (acc : TGraph)
    (hclose : ∀ b ∈ bins, isClose (h.centers.getD b 0)
      ((g.points.getD b defaultPoint).x)) :
    divide_loop msqrt h g bins acc
      = some { acc with
          points := bins.foldl
            (fun ps b => ps.set b (new_point msqrt h g b)) acc.points } := by
  induction bins generalizing acc with
  | nil => simp [divide_loop]
  | cons b t ih =>
      have hb := hclose b (List.mem_cons_self b t)
      have ht : ∀ b' ∈ t, isClose (h.centers.getD b' 0)
          ((g.points.getD b' defaultPoint).x) :=
        fun b' hm => hclose b' (List.mem_cons_of_mem b hm)
      simp only [divide_loop, divide_step, if_pos hb]
      rw [ih _ ht]
      rfl

/-- Helper: the loop aborts exactly when some listed bin fails the closeness
check. -/
lemma divide_loop_eq_none_iff (msqrt : ℚ → ℚ) (h : TH1) (g : TGraph)
    (bins : List ℕ) (acc : TGraph) :
    divide_loop msqrt h g bins acc = none
      ↔ ∃ b ∈ bins, ¬ isClose (h.centers.getD b 0)
          ((g.points.getD b defaultPoint).x) := by
  induction bins generalizing acc with
  | nil => simp [divide_loop]
  | cons b t ih =>
      by_cases hb : isClose (h.centers.getD b 0) ((g.points.getD b defaultPoint).x)
      · simp only [divide_loop, divide_step, if_pos hb]
        rw [ih]
        constructor
        · rintro ⟨b', hm, hnc⟩
          exact ⟨b', List.mem_cons_of_mem b hm, hnc⟩
        · rintro ⟨b', hm, hnc⟩
          rcases List.mem_cons.mp hm with rfl | hm
          · exact absurd hb hnc
          · exact ⟨b', hm, hnc⟩
      · simp only [divide_loop, divide_step, if_neg hb]
        exact ⟨fun _ => ⟨b, List.mem_cons_self b t, hb⟩, fun _ => by trivial⟩

/-- Helper: writing points never changes the point-list length. -/
lemma length_foldl_set (v : ℕ → TGraphPoint) (bins : List ℕ)
    (ps : List TGraphPoint) :
    (bins.foldl (fun ps b => ps.set b (v b)) ps).length = ps.length := by
  induction bins generalizing ps with
  | nil => rfl
  | cons b t ih => simp [ih, List.length_set]

/-- Helper: after folding the writes over `range n`, position `j` holds the
written point when `j < n` is in range, and the original entry otherwise. -/
lemma getElem_foldl_set_range (v : ℕ → TGraphPoint) (n : ℕ)
    (ps : List TGraphPoint) (j : ℕ) :
    ((List.range n).foldl (fun ps b => ps.set b (v b)) ps)[j]?
      = if j < n ∧ j < ps.length then some (v j) else ps[j]? := by
  induction n with
  | zero => simp
  | succ n ih =>
      rw [List.range_succ, List.foldl_append]
      simp only [List.foldl_cons, List.foldl_nil]
      rw [List.getElem?_set]
      by_cases hj : n = j
      · subst hj
        rw [length_foldl_set, if_pos rfl]
        by_cases hlen : n < ps.length
        · simp [hlen]
        · rw [if_neg hlen, if_neg (fun hc : n < n + 1 ∧ n < ps.length => hlen hc.2)]
          exact (List.getElem?_eq_none (by omega)).symm
      · rw [if_neg hj, ih]
        by_cases hc : j < n ∧ j < ps.length
        · rw [if_pos hc, if_pos ⟨by omega, hc.2⟩]
        · rw [if_neg hc, if_neg (fun hc' => hc ⟨by omega, hc'.2⟩)]

/-- C10. For a histogram `h` with `n` bins and a graph `g` with at least
`n` points whose x-coordinates equal the bin centers and whose y-values are
nonzero, `divide_tgraph` returns a new graph (named after `g` with
`_divided` appended, `g` itself untouched in this pure model) whose `i`-th
point content is `h`'s `i`-th bin content divided by `g`'s `i`-th y-value,
points beyond `n` being carried over unchanged; and whenever some bin center
differs from the corresponding graph x beyond the `np.isclose` tolerance, the
function terminates the process (returns `none`) instead of returning a
graph. -/
theorem divide_tgraph_pointwise (msqrt : ℚ → ℚ) (h : TH1) (g : TGraph) :
    ((h.contents.length = h.centers.length) →
     (h.centers.length ≤ g.points.length) →
     (∀ i < h.centers.length,
        h.centers.getD i 0 = (g.points.getD i defaultPoint).x) →
     (∀ i < h.centers.length, (g.points.getD i defaultPoint).y ≠ 0) →
     ∃ gq, divide_tgraph msqrt h g = some gq ∧
       gq.name = g.name ++ "_divided" ∧
       gq.points.length = g.points.length ∧
       (∀ i < h.centers.length,
          (gq.points.getD i defaultPoint).y
            = h.contents.getD i 0 / (g.points.getD i defaultPoint).y) ∧
       (∀ i, h.centers.length ≤ i →
          gq.points.getD i defaultPoint = g.points.getD i defaultPoint)) ∧
    ((∃ i < h.centers.length,
        ¬ isClose (h.centers.getD i 0) ((g.points.getD i defaultPoint).x)) →
      divide_tgraph msqrt h g = none) := by
  constructor
  · intro _hlen hle hx _hy
    have hclose : ∀ b ∈ List.range h.centers.length,
        isClose (h.centers.getD b 0) ((g.points.getD b defaultPoint).x) := by
      intro b hb
      rw [List.mem_range] at hb
      rw [hx b hb]
      exact isClose_self _
    refine ⟨_, by unfold divide_tgraph; rw [divide_loop_eq_some msqrt h g _ _ hclose],
      rfl, length_foldl_set _ _ _, ?_, ?_⟩
    · intro i hi
      rw [List.getD_eq_getElem?_getD, getElem_foldl_set_range,
        if_pos ⟨hi, lt_of_lt_of_le hi hle⟩]
      rfl
    · intro i hi
      rw [List.getD_eq_getElem?_getD, getElem_foldl_set_range,
        if_neg (fun hc => absurd hc.1 (not_lt.mpr hi)), ← List.getD_eq_getElem?_getD]
  · intro hex
    unfold divide_tgraph
    rw [divide_loop_eq_none_iff]
    rcases hex with ⟨i, hi, hnc⟩
    exact ⟨i, List.mem_range.mpr hi, hnc⟩

/-- Witness for C10 at concrete inputs: a one-bin histogram (center 1,
content 6) divided by a two-point graph whose first point is (1, 2) yields
content 3 and keeps the extra point; replacing the first point's x by 5 makes
the function abort. -/
theorem divide_tgraph_pointwise_witness :
    (∃ gq, divide_tgraph id ⟨[1], [6], [0]⟩ ⟨"g", [⟨1, 2, 0, 0, 0, 0⟩, ⟨9, 9, 0, 0, 0, 0⟩]⟩
        = some gq ∧
      gq.name = "g" ++ "_divided" ∧
      gq.points.length = ([⟨1, 2, 0, 0, 0, 0⟩, ⟨9, 9, 0, 0, 0, 0⟩] : List TGraphPoint).length ∧
      (∀ i < ([(1 : ℚ)] : List ℚ).length,
        (gq.points.getD i defaultPoint).y
          = ([(6 : ℚ)] : List ℚ).getD i 0
            / (([⟨1, 2, 0, 0, 0, 0⟩, ⟨9, 9, 0, 0, 0, 0⟩] : List TGraphPoint).getD i defaultPoint).y) ∧
      (∀ i, ([(1 : ℚ)] : List ℚ).length ≤ i →
        gq.points.getD i defaultPoint
          = ([⟨1, 2, 0, 0, 0, 0⟩, ⟨9, 9, 0, 0, 0, 0⟩] : List TGraphPoint).getD i defaultPoint)) ∧
    divide_tgraph id ⟨[1], [6], [0]⟩ ⟨"g", [⟨5, 2, 0, 0, 0, 0⟩]⟩ = none := by
  constructor
  · exact (divide_tgraph_pointwise id ⟨[1], [6], [0]⟩
      ⟨"g", [⟨1, 2, 0, 0, 0, 0⟩, ⟨9, 9, 0, 0, 0, 0⟩]⟩).1 rfl (by decide)
      (by
        intro i hi
        have h0 : i = 0 := by
          simp only [List.length_cons, List.length_nil] at hi
          omega
        subst h0
        rfl)
      (by
        intro i hi
        have h0 : i = 0 := by
          simp only [List.length_cons, List.length_nil] at hi
          omega
        subst h0
        decide)
  · exact (divide_tgraph_pointwise id ⟨[1], [6], [0]⟩ ⟨"g", [⟨5, 2, 0, 0, 0, 0⟩]⟩).2
      ⟨0, by decide, by show ¬ isClose 1 5; norm_num [isClose]⟩
